import Mathlib

/-!
Verification development for the counselor agent server
(`server/counselor.ts` and the `/api/chat` endpoint in `App.tsx`).

The TypeScript source is shallowly embedded:
* strings are manipulated as `List Char` (via `String.data`) so that all
  operations are structural and kernel-evaluable;
* the on-disk memory store is an association list from resolved physical
  path (a `String`) to file content; directories are implicit (a path `d`
  is a directory when some stored file lives strictly below `d ++ "/"`);
* JavaScript `number` arguments that the code compares with integers are
  embedded as `Int`;
* the inference capability (the Anthropic tool runner) is an external
  dependency; a single turn's interaction with it is embedded as a
  `RunnerScript`: the ordered items it produced (text deltas and UI tool
  invocations) followed by either normal completion or a thrown error.
-/

-- ─────────────────────────────────────────────────────────────────────────────
-- Generic string helpers (JavaScript semantics, on `List Char`)
-- ─────────────────────────────────────────────────────────────────────────────

/-- Rebuild a `String` from its character list. -/
def ofChars (l : List Char) : String := ⟨l⟩

/-- Split a character list at every occurrence of the separator character,
keeping empty pieces, like JavaScript `s.split(sep)` for a one-character
separator.  `splitChar c [] = [[]]`, matching `"".split(sep) === [""]`. -/
def splitCharAux (sep : Char) : List Char → List Char → List (List Char)
  | [], acc => [acc.reverse]
  | c :: rest, acc =>
    if c = sep then acc.reverse :: splitCharAux sep rest []
    else splitCharAux sep rest (c :: acc)

def splitChar (sep : Char) (l : List Char) : List (List Char) :=
  splitCharAux sep l []

/-- JavaScript whitespace test used by `String.prototype.trim` (restricted to
the common ASCII whitespace characters). -/
def isJsWhitespace (c : Char) : Bool :=
  c = ' ' ∨ c = '\t' ∨ c = '\n' ∨ c = '\r'

/-- JavaScript `s.trim()`. -/
def trimChars (l : List Char) : List Char :=
  ((l.dropWhile isJsWhitespace).reverse.dropWhile isJsWhitespace).reverse

def strTrim (s : String) : String := ofChars (trimChars s.data)

/-- Number of non-overlapping occurrences of `pat` in a list, scanning left to
right and skipping past each match, exactly as JavaScript
`s.split(pat).length - 1` counts them for a non-empty `pat`.  The `fuel`
argument only bounds the recursion; `countOcc` supplies enough of it. -/
def countOccGo (pat : List Char) : Nat → List Char → Nat
  | 0, _ => 0
  | _, [] => 0
  | fuel + 1, c :: rest =>
    if pat.isPrefixOf (c :: rest) then
      1 + countOccGo pat fuel (List.drop (pat.length - 1) rest)
    else
      countOccGo pat fuel rest

def countOcc (pat s : List Char) : Nat := countOccGo pat s.length s

/-- JavaScript `content.split(old).length - 1`, the occurrence count computed
by `str_replace` in the source.  For an empty separator, `split` returns one
singleton array entry per character (and `[]` on the empty string), so the
count degenerates to `content.length - 1` as an integer. -/
def jsSplitCount (content pat : List Char) : Int :=
  if pat = [] then (content.length : Int) - 1
  else (countOcc pat content : Int)

/-- JavaScript `s.replace(old, new)` with a string pattern: replace the
leftmost occurrence only; an empty pattern matches at position 0. -/
def replaceFirst (pat repl : List Char) : List Char → List Char
  | [] => if pat = [] then repl else []
  | c :: rest =>
    if pat.isPrefixOf (c :: rest) then repl ++ List.drop pat.length (c :: rest)
    else c :: replaceFirst pat repl rest

/-- Number of starting positions at which `pat` occurs in `s` as a substring
(overlapping occurrences included) — the plain mathematical reading of
"`old` occurs in the content exactly once". -/
def substrOccurrences (pat s : List Char) : Nat :=
  (s.tails.filter (fun t => pat.isPrefixOf t)).length

/-- JavaScript `Array.prototype.slice(s, e)` on lists, with negative indices
counting from the end. -/
def jsSlice (l : List α) (s e : Int) : List α :=
  let n : Int := l.length
  let lo : Int := if s < 0 then max (n + s) 0 else min s n
  let hi : Int := if e < 0 then max (n + e) 0 else min e n
  (l.drop lo.toNat).take (hi - lo).toNat

-- ─────────────────────────────────────────────────────────────────────────────
-- Path resolution (`FileSystemMemoryHandlers.resolveSafePath`)
--
-- Physical absolute POSIX paths are represented by their list of components;
-- `joinAbs` prints them back as the `/`-joined string that `path.resolve`
-- returns.  `MEMORY_ROOT` is a parameter (`root`): the list of components of
-- the already-resolved storage root (e.g. `["srv", "memories"]` for
-- `/srv/memories`).
-- ─────────────────────────────────────────────────────────────────────────────

inductive PathError
  /-- Thrown as `路徑必須以 /memories 開頭` — the logical path lacks the virtual root. -/
  | pathRejected
  /-- Thrown as `偵測到路徑穿越攻擊` — canonicalization left the storage root. -/
  | pathEscape
deriving DecidableEq

/-- One step of POSIX path normalization (as performed by `path.resolve` /
`path.join`): empty and `.` components vanish, `..` pops, anything else is
appended.  Popping at the filesystem root stays at the root. -/
def normStep (stack : List (List Char)) (comp : List Char) : List (List Char) :=
  if comp = [] ∨ comp = ['.'] then stack
  else if comp = ['.', '.'] then stack.dropLast
  else stack ++ [comp]

def normAbs (comps : List (List Char)) : List (List Char) :=
  comps.foldl normStep []

/-- Print an absolute path from its components (`[] ↦ "/"`). -/
def joinAbs (cs : List (List Char)) : List Char :=
  '/' :: List.intercalate ['/'] cs

/-- The fixed virtual root `'/memories'`. -/
def vroot : List Char := "/memories".data

/-- Models `memPath.startsWith('/memories')`. -/
def startsWithMemories (p : String) : Bool :=
  vroot.isPrefixOf p.data

/-- Models `.replace(/^[/\\]/, '')` — drop a single leading slash or backslash. -/
def stripLeadSep : List Char → List Char
  | [] => []
  | c :: rest => if c = '/' ∨ c = '\\' then rest else c :: rest

/-- The component list of the relative part: the logical path minus the
virtual root, minus one leading separator, split on `/`.  On POSIX, `\\` is
an ordinary filename character, so only `/` separates. -/
def relParts (p : String) : List (List Char) :=
  let relative := stripLeadSep (p.data.drop vroot.length)
  if relative = [] then [] else splitChar '/' relative

/-- Models `path.resolve(path.join(MEMORY_ROOT, relative))` as components. -/
def canonParts (root : List (List Char)) (p : String) : List (List Char) :=
  normAbs (root ++ relParts p)

/-- The containment check
`resolved.startsWith(resolvedRoot + path.sep) || resolved === resolvedRoot`,
performed on the printed strings exactly as in the source. -/
def insideRoot (root : List (List Char)) (p : String) : Bool :=
  let resolved := joinAbs (canonParts root p)
  let resolvedRoot := joinAbs (normAbs root)
  (resolvedRoot ++ ['/']).isPrefixOf resolved ∨ resolved = resolvedRoot

/-- Models `FileSystemMemoryHandlers.resolveSafePath`: reject paths outside the
virtual root, resolve the remainder against the storage root, and reject
canonical results that escape the root.  Returns the resolved physical path
(as characters) on success. -/
def resolveSafePath (root : List (List Char)) (p : String) :
    Except PathError (List Char) :=
  if startsWithMemories p = false then .error .pathRejected
  else if insideRoot root p then .ok (joinAbs (canonParts root p))
  else .error .pathEscape

-- ─────────────────────────────────────────────────────────────────────────────
-- The memory filesystem state and the six operations
-- ─────────────────────────────────────────────────────────────────────────────

/-- The persistent store: resolved physical path ↦ file text.  Directories are
implicit: `d` is a directory when some key lies strictly below `d ++ "/"`. -/
abbrev FS := List (String × String)

def lookupFile (fs : FS) (p : String) : Option String :=
  (fs.find? (fun e => e.1 == p)).map (·.2)

def isDirAt (fs : FS) (p : String) : Bool :=
  fs.any (fun e => (p ++ "/").data.isPrefixOf e.1.data)

/-- Models `existsSync(p)`: a file lives at `p`, or `p` is a (non-empty) directory. -/
def existsAt (fs : FS) (p : String) : Bool :=
  fs.any (fun e => e.1 == p) ∨ isDirAt fs p

def writeFile (fs : FS) (p c : String) : FS :=
  if fs.any (fun e => e.1 == p) then
    fs.map (fun e => if e.1 == p then (p, c) else e)
  else (p, c) :: fs

/-- Every operation returns the store after the call together with either a
hard path-safety error (a thrown exception in the source) or the tool-output
string, tagged by whether the handler's success or soft-error branch
produced it. -/
inductive ToolOut
  | success (msg : String)
  | softError (msg : String)
deriving DecidableEq

abbrev OpResult := FS × Except PathError ToolOut

namespace FileSystemMemoryHandlers

/-- Content lines as the source computes them: `content.split('\n')`. -/
def contentLines (c : String) : List String :=
  (splitChar '\n' c.data).map ofChars

/-- Number a block of lines as `view` does (`padStart(6)` then a tab). -/
def numberLine (i : Nat) (line : String) : String :=
  ofChars (List.replicate (6 - (toString i).length) ' ') ++ toString i
    ++ "\t" ++ line

/-- The `view` of a file: the requested 1-indexed inclusive line range
(`-1` end sentinel = whole rest of file), each line prefixed by its absolute
line number.  Mirrors `slice(start - 1, end)` on the split lines. -/
def viewFile (content : String) (range : Option (Int × Int)) : String :=
  let lines := contentLines content
  let start : Int := match range with
    | some (s, _) => s
    | none => 1
  let stop : Int := match range with
    | some (_, e) => if e = -1 then (lines.length : Int) else e
    | none => (lines.length : Int)
  let picked := jsSlice (lines.enum.map (fun ie => numberLine (start.toNat + ie.1) ie.2))
    (start - 1) stop
  ofChars (List.intercalate ['\n'] (picked.map String.data))

/-- Directory listing (`buildDirectoryListing`), abstracted: the header line
followed by one `sizeK\tlogicalChildPath` line per stored file at most two
components below the directory, hidden entries (leading `.`) skipped.  Entry
order and the sizes of subdirectories themselves are abstracted away; no
claim inspects the listing text. -/
def dirListing (fs : FS) (phys logical : String) : String :=
  let header := logical ++ " 目錄內容（最多 2 層）："
  let entries := fs.filterMap (fun e =>
    let pre := (phys ++ "/").data
    if pre.isPrefixOf e.1.data then
      let rel := e.1.data.drop pre.length
      let comps := splitChar '/' rel
      if comps.length ≤ 2 ∧ comps.all (fun c => c.head? ≠ some '.') then
        some (toString (e.2.length / 1024) ++ "." ++ "0K\t" ++ logical
          ++ "/" ++ ofChars rel)
      else none
    else none)
  ofChars (List.intercalate ['\n'] ((header :: entries).map String.data))

/-- Handler `view`: list a directory or read (a range of) a file; a missing path is a
soft error string, never an exception. -/
def view (root : List (List Char)) (fs : FS) (p : String)
    (range : Option (Int × Int)) : OpResult :=
  match resolveSafePath root p with
  | .error e => (fs, .error e)
  | .ok full =>
    let fp := ofChars full
    if isDirAt fs fp then (fs, .ok (.success (dirListing fs fp p)))
    else match lookupFile fs fp with
      | some content => (fs, .ok (.success (viewFile content range)))
      | none => (fs, .ok (.softError ("路徑 " ++ p ++ " 不存在。")))

/-- Handler `create`: soft error when something already exists at the path, else
write the file (parent directories are implicit in this store). -/
def create (root : List (List Char)) (fs : FS) (p text : String) : OpResult :=
  match resolveSafePath root p with
  | .error e => (fs, .error e)
  | .ok full =>
    let fp := ofChars full
    if existsAt fs fp then (fs, .ok (.softError ("錯誤：檔案 " ++ p ++ " 已存在")))
    else (writeFile fs fp text, .ok (.success ("檔案建立成功：" ++ p)))

/-- Handler `str_replace`: require the file to exist and `old` to occur exactly once
by the source's `split`-based count; replace the leftmost occurrence. -/
def str_replace (root : List (List Char)) (fs : FS)
    (p old new : String) : OpResult :=
  match resolveSafePath root p with
  | .error e => (fs, .error e)
  | .ok full =>
    let fp := ofChars full
    match lookupFile fs fp with
    | none => (fs, .ok (.softError ("錯誤：找不到 " ++ p)))
    | some content =>
      let count := jsSplitCount content.data old.data
      if count = 0 then
        (fs, .ok (.softError ("取代失敗：在 " ++ p ++ " 中找不到 `" ++ old ++ "`")))
      else if count > 1 then
        (fs, .ok (.softError ("取代失敗：`" ++ old ++ "` 在 " ++ p ++ " 中出現 "
          ++ toString count ++ " 次，請確保目標字串唯一")))
      else
        (writeFile fs fp (ofChars (replaceFirst old.data new.data content.data)),
         .ok (.success ("記憶檔案已更新：" ++ p)))

/-- Handler `insert`: splice one new line in at `insert_line` (0 = before the first
line); out-of-range line numbers fail softly stating the valid range. -/
def insert (root : List (List Char)) (fs : FS) (p : String)
    (insertLine : Int) (text : String) : OpResult :=
  match resolveSafePath root p with
  | .error e => (fs, .error e)
  | .ok full =>
    let fp := ofChars full
    match lookupFile fs fp with
    | none => (fs, .ok (.softError ("錯誤：找不到 " ++ p)))
    | some content =>
      let lines := contentLines content
      if insertLine < 0 ∨ insertLine > (lines.length : Int) then
        (fs, .ok (.softError ("錯誤：insert_line " ++ toString insertLine
          ++ " 超出範圍 [0, " ++ toString lines.length ++ "]")))
      else
        let m := insertLine.toNat
        let newLines := lines.take m ++ [text] ++ lines.drop m
        (writeFile fs fp (ofChars (List.intercalate ['\n'] (newLines.map String.data))),
         .ok (.success ("已在第 " ++ toString insertLine ++ " 行插入內容至 " ++ p)))

/-- Handler `delete`: `fs.rm(fullPath, { recursive: true, force: true })`.  Because
`force: true` suppresses the missing-path error, `rm` resolves even when
nothing exists there, so the catch branch (`錯誤：找不到`) is unreachable for
a nonexistent path and the operation always reports success. -/
def delete (root : List (List Char)) (fs : FS) (p : String) : OpResult :=
  match resolveSafePath root p with
  | .error e => (fs, .error e)
  | .ok full =>
    let fp := ofChars full
    (fs.filter (fun e => ¬(e.1 == fp ∨ (fp ++ "/").data.isPrefixOf e.1.data)),
     .ok (.success ("已刪除 " ++ p)))

/-- Handler `rename`: soft error when the source is missing or the destination
exists; otherwise move the file, or every file below the directory. -/
def rename (root : List (List Char)) (fs : FS) (oldP newP : String) : OpResult :=
  match resolveSafePath root oldP with
  | .error e => (fs, .error e)
  | .ok oldFull =>
    match resolveSafePath root newP with
    | .error e => (fs, .error e)
    | .ok newFull =>
      let op := ofChars oldFull
      let np := ofChars newFull
      if existsAt fs op = false then
        (fs, .ok (.softError ("錯誤：找不到 " ++ oldP)))
      else if existsAt fs np then
        (fs, .ok (.softError ("錯誤：" ++ newP ++ " 已存在")))
      else
        (fs.map (fun e =>
          if e.1 == op then (np, e.2)
          else if (op ++ "/").data.isPrefixOf e.1.data then
            (np ++ ofChars (e.1.data.drop op.length), e.2)
          else e),
         .ok (.success ("已將 " ++ oldP ++ " 重新命名為 " ++ newP)))

end FileSystemMemoryHandlers

/-- One memory-tool command, as dispatched to the handlers. -/
inductive MemOp
  | view (p : String) (range : Option (Int × Int))
  | create (p text : String)
  | str_replace (p old new : String)
  | insert (p : String) (insertLine : Int) (text : String)
  | delete (p : String)
  | rename (oldP newP : String)
deriving DecidableEq

def runMemOp (root : List (List Char)) (fs : FS) : MemOp → OpResult
  | .view p range => FileSystemMemoryHandlers.view root fs p range
  | .create p text => FileSystemMemoryHandlers.create root fs p text
  | .str_replace p old new => FileSystemMemoryHandlers.str_replace root fs p old new
  | .insert p n text => FileSystemMemoryHandlers.insert root fs p n text
  | .delete p => FileSystemMemoryHandlers.delete root fs p
  | .rename a b => FileSystemMemoryHandlers.rename root fs a b

/-- The logical paths an operation receives (`rename` takes two). -/
def opPaths : MemOp → List String
  | .view p _ => [p]
  | .create p _ => [p]
  | .str_replace p _ _ => [p]
  | .insert p _ _ => [p]
  | .delete p => [p]
  | .rename a b => [a, b]

/-- An operation's result counts as a success only when the handler took its
success branch (not a soft error, not a thrown path error). -/
def isSuccess (r : OpResult) : Bool :=
  match r.2 with
  | .ok (.success _) => true
  | _ => false

-- ─────────────────────────────────────────────────────────────────────────────
-- Short-term memory: the session store (`sessions`, `getSession`,
-- `addToSession`)
-- ─────────────────────────────────────────────────────────────────────────────

inductive MessageRole
  | user
  | assistant
deriving DecidableEq

structure ShortTermMessage where
  role : MessageRole
  content : String
deriving DecidableEq

/-- The module-level `Map<string, ShortTermMessage[]>`, observed as a total
function with default `[]`: `getSession` materializes the empty array on
first access, which is invisible at this level of abstraction. -/
abbrev Store := String → List ShortTermMessage

def emptyStore : Store := fun _ => []

def getSession (store : Store) (sessionId : String) : List ShortTermMessage :=
  store sessionId

/-- Models `addToSession` on one session's array: push, then keep only the most
recent 50 entries (`msgs.splice(0, msgs.length - 50)`). -/
def addToSession (msgs : List ShortTermMessage) (role : MessageRole)
    (content : String) : List ShortTermMessage :=
  let m := msgs ++ [⟨role, content⟩]
  if m.length > 50 then m.drop (m.length - 50) else m

def addToStore (store : Store) (sessionId : String) (role : MessageRole)
    (content : String) : Store :=
  fun id =>
    if id = sessionId then addToSession (getSession store sessionId) role content
    else store id

/-- One observable call against the session store. -/
inductive SessOp
  | get (sessionId : String)
  | add (sessionId : String) (role : MessageRole) (content : String)

def sessStep (store : Store) : SessOp → Store
  | .get _ => store
  | .add sid role content => addToStore store sid role content

def runSessOps (ops : List SessOp) : Store :=
  ops.foldl sessStep emptyStore

/-- The turns a sequence of calls appended to one particular session. -/
def turnsFor (sessionId : String) (ops : List SessOp) : List ShortTermMessage :=
  ops.filterMap (fun op =>
    match op with
    | .get _ => none
    | .add sid role content =>
      if sid = sessionId then some ⟨role, content⟩ else none)

/-- The most recent `n` elements of a list, in order. -/
def lastN (n : Nat) (l : List α) : List α := l.drop (l.length - n)

-- ─────────────────────────────────────────────────────────────────────────────
-- UI tool payloads (`CardEvent`, `MeditationEvent`) and the streamed turn
-- (`streamCounselorResponse` plus the SSE wiring of `app.post('/api/chat')`)
-- ─────────────────────────────────────────────────────────────────────────────

structure MoodCard where
  id : String
  name : String
  english_name : String
  symbol : String
  color_theme : String
  description : String
deriving DecidableEq

structure CardEvent where
  prompt : String
  cards : List MoodCard
deriving DecidableEq

structure MeditationBreathing where
  inhale_seconds : Int
  hold_seconds : Int
  exhale_seconds : Int
  rest_seconds : Int
deriving DecidableEq

structure MeditationEvent where
  title : String
  guidance : String
  duration_minutes : Int
  breathing : MeditationBreathing
deriving DecidableEq

/-- One observable item produced by the tool runner while processing a turn:
a streamed `text_delta`, an invocation of one of the two UI tools (which the
handler forwards through its callback), or any other stream event, which the
double `for await` loop ignores. -/
inductive RunnerItem
  | textDelta (text : String)
  | cardsCall (event : CardEvent)
  | meditationCall (event : MeditationEvent)
  | otherEvent
deriving DecidableEq

/-- A whole turn of runner behavior: the items it emitted, in order, and then
either normal completion (`failure = none`) or a thrown error that aborts
the `for await` loops (`failure = some message`).  The inference capability
is external, so the script is universally quantified in the theorems. -/
structure RunnerScript where
  items : List RunnerItem
  failure : Option String

/-- One event on the per-turn SSE stream, as `app.post('/api/chat')` emits
them: `delta`, `cards`, `meditation`, and the terminals `done` / `error`
(after which the response is closed by `res.end()`). -/
inductive SSEEvent
  | delta (text : String)
  | cards (event : CardEvent)
  | meditation (event : MeditationEvent)
  | done
  | errorEv (message : String)
deriving DecidableEq

def isTerminal : SSEEvent → Bool
  | .done => true
  | .errorEv _ => true
  | _ => false

/-- Models `fullAssistantText`: the `+=`-accumulation of every `text_delta`. -/
def concatDeltas (items : List RunnerItem) : String :=
  items.foldl (fun acc it =>
    match it with
    | .textDelta t => acc ++ t
    | _ => acc) ""

/-- The SSE events forwarded while the runner produces `items`: one `delta`
per text delta and one UI event per UI tool invocation, in order. -/
def itemEvents (items : List RunnerItem) : List SSEEvent :=
  items.filterMap (fun it =>
    match it with
    | .textDelta t => some (.delta t)
    | .cardsCall e => some (.cards e)
    | .meditationCall e => some (.meditation e)
    | .otherEvent => none)

structure StreamOutcome where
  store : Store
  events : List SSEEvent

/-- Models `streamCounselorResponse`, composed with the endpoint's callbacks:
append the user turn, run the (externally scripted) tool runner forwarding
deltas and UI events, then on success persist the accumulated text as one
assistant turn unless it trims to empty and emit `done`; a thrown error
skips persistence and emits `error` instead. -/
def streamCounselorResponse (store : Store) (sessionId userMessage : String)
    (script : RunnerScript) : StreamOutcome :=
  let store1 := addToStore store sessionId .user userMessage
  let fullAssistantText := concatDeltas script.items
  match script.failure with
  | some msg =>
    { store := store1, events := itemEvents script.items ++ [.errorEv msg] }
  | none =>
    let store2 :=
      if strTrim fullAssistantText ≠ "" then
        addToStore store1 sessionId .assistant fullAssistantText
      else store1
    { store := store2, events := itemEvents script.items ++ [.done] }

-- ─────────────────────────────────────────────────────────────────────────────
-- The `/api/chat` endpoint (request validation in `App.tsx`)
-- ─────────────────────────────────────────────────────────────────────────────

/-- A JSON value as relevant to the endpoint's `typeof`/truthiness checks. -/
inductive JsonValue
  | str (s : String)
  | num (n : Int)
  | boolean (b : Bool)
  | null
deriving DecidableEq

/-- The parsed request body; `none` models an absent field. -/
structure ChatBody where
  sessionId : Option JsonValue
  message : Option JsonValue
deriving DecidableEq

/-- The synchronous outcome of `app.post('/api/chat')`: an HTTP 400 with an
error object, or the opened SSE stream. -/
inductive ChatResponse
  | badRequest (error : String)
  | stream (events : List SSEEvent)

/-- The endpoint: validate `sessionId` and `message`
(`!x || typeof x !== 'string'`, plus `!message.trim()`), then open the SSE
stream and run `streamCounselorResponse` on the trimmed message. -/
def chatHandler (store : Store) (body : ChatBody) (script : RunnerScript) :
    Store × ChatResponse :=
  match body.sessionId with
  | some (.str sid) =>
    if sid = "" then (store, .badRequest "sessionId 為必填欄位")
    else
      match body.message with
      | some (.str msg) =>
        if msg = "" then (store, .badRequest "message 為必填欄位")
        else if strTrim msg = "" then (store, .badRequest "message 為必填欄位")
        else
          let out := streamCounselorResponse store sid (strTrim msg) script
          (out.store, .stream out.events)
      | _ => (store, .badRequest "message 為必填欄位")
  | _ => (store, .badRequest "sessionId 為必填欄位")

/-- Field predicate: sessionId or message is missing, not a string, or empty. -/
def badField : Option JsonValue → Bool
  | some (.str s) => s = ""
  | _ => true

deriving instance DecidableEq for Except

/-- A concrete storage root, `/srv/memories`, for concrete instantiations. -/
def sampleRoot : List (List Char) := ["srv".data, "memories".data]

/-- A concrete store holding the single file `/srv/memories/f.txt` with
content `aaa`. -/
def sampleFS : FS := [("/srv/memories/f.txt", "aaa")]

-- ─────────────────────────────────────────────────────────────────────────────
-- Theorems
-- ─────────────────────────────────────────────────────────────────────────────

/-- A path that fails either safety condition makes `resolveSafePath` throw. -/
theorem resolve_error_of_bad (root : List (List Char)) (p : String)
    (hbad : startsWithMemories p = false ∨ insideRoot root p = false) :
    ∃ e, resolveSafePath root p = .error e := by
  unfold resolveSafePath
  rcases hbad with h | h
  · exact ⟨.pathRejected, by simp [h]⟩
  · cases hsw : startsWithMemories p
    · exact ⟨.pathRejected, by simp⟩
    · exact ⟨.pathEscape, by simp [h]⟩

/-- C1 (Path confinement): for every logical path handed to any of the six
memory operations, if it does not start with `/memories` or its
canonicalized physical path is neither the canonical storage root nor a
strict descendant of it, the operation returns a hard path error and the
store is untouched (no filesystem access happens). -/
theorem path_confinement (root : List (List Char)) (fs : FS) (op : MemOp)
    (p : String) (hp : p ∈ opPaths op)
    (hbad : startsWithMemories p = false ∨ insideRoot root p = false) :
    (runMemOp root fs op).1 = fs ∧ ∃ e, (runMemOp root fs op).2 = .error e := by
  obtain ⟨e, he⟩ := resolve_error_of_bad root p hbad
  cases op with
  | view q range =>
    simp only [opPaths, List.mem_singleton] at hp
    subst hp
    simp [runMemOp, FileSystemMemoryHandlers.view, he]
  | create q text =>
    simp only [opPaths, List.mem_singleton] at hp
    subst hp
    simp [runMemOp, FileSystemMemoryHandlers.create, he]
  | str_replace q old new =>
    simp only [opPaths, List.mem_singleton] at hp
    subst hp
    simp [runMemOp, FileSystemMemoryHandlers.str_replace, he]
  | insert q n text =>
    simp only [opPaths, List.mem_singleton] at hp
    subst hp
    simp [runMemOp, FileSystemMemoryHandlers.insert, he]
  | delete q =>
    simp only [opPaths, List.mem_singleton] at hp
    subst hp
    simp [runMemOp, FileSystemMemoryHandlers.delete, he]
  | rename a b =>
    simp only [opPaths, List.mem_cons, List.mem_singleton, List.not_mem_nil,
      or_false] at hp
    rcases hp with rfl | rfl
    · simp [runMemOp, FileSystemMemoryHandlers.rename, he]
    · cases h1 : resolveSafePath root a with
      | error e1 =>
        simp [runMemOp, FileSystemMemoryHandlers.rename, h1]
      | ok full =>
        simp [runMemOp, FileSystemMemoryHandlers.rename, h1, he]

/-- Witness for C1: `view('/etc/passwd')` against the sample root is a hard
error and leaves the (empty) store unchanged. -/
theorem path_confinement_witness :
    startsWithMemories "/etc/passwd" = false ∧
    ((runMemOp sampleRoot [] (.view "/etc/passwd" none)).1 = [] ∧
      ∃ e, (runMemOp sampleRoot [] (.view "/etc/passwd" none)).2 = .error e) :=
  ⟨by decide,
   path_confinement sampleRoot [] (.view "/etc/passwd" none) "/etc/passwd"
     (by decide) (Or.inl (by decide))⟩

/-- The retained suffix has at most `n` elements. -/
theorem length_lastN (n : Nat) (l : List α) : (lastN n l).length ≤ n := by
  unfold lastN
  rw [List.length_drop]
  omega

/-- Appending one turn to a capped transcript keeps exactly the most recent
50 turns of the full history, in order. -/
theorem addToSession_lastN (l : List ShortTermMessage) (r : MessageRole)
    (c : String) :
    addToSession (lastN 50 l) r c = lastN 50 (l ++ [⟨r, c⟩]) := by
  unfold addToSession lastN
  by_cases h : l.length ≤ 50
  · have h0 : l.length - 50 = 0 := by omega
    rw [h0, List.drop_zero]
    simp only [List.length_append, List.length_singleton]
    by_cases h1 : l.length + 1 > 50
    · simp [h1]
    · have h2 : l.length + 1 - 50 = 0 := by omega
      simp [h1, h2]
  · have hlen : (l.drop (l.length - 50)).length = 50 := by
      rw [List.length_drop]; omega
    have hcond : (l.drop (l.length - 50) ++ [(⟨r, c⟩ : ShortTermMessage)]).length > 50 := by
      rw [List.length_append, hlen]; simp
    rw [if_pos hcond]
    have hdroplen : (l.drop (l.length - 50) ++ [(⟨r, c⟩ : ShortTermMessage)]).length - 50 = 1 := by
      rw [List.length_append, hlen]; simp
    rw [hdroplen]
    rw [List.drop_append_of_le_length (by rw [hlen]; omega), List.drop_drop]
    have hlen2 : (l ++ [(⟨r, c⟩ : ShortTermMessage)]).length - 50 = l.length - 49 := by
      rw [List.length_append]
      simp only [List.length_singleton]
      omega
    rw [hlen2]
    rw [List.drop_append_of_le_length (by omega)]
    congr 2
    omega

/-- Generalized invariant: running any further call sequence from a store
whose every transcript is the capped suffix of that session's history gives,
for every session, the capped suffix of the history extended by the turns
the calls appended to it. -/
theorem runSessOps_from (ops : List SessOp) (st : Store)
    (h : String → List ShortTermMessage)
    (hst : ∀ sid, st sid = lastN 50 (h sid)) :
    ∀ sid, (ops.foldl sessStep st) sid = lastN 50 (h sid ++ turnsFor sid ops) := by
  induction ops generalizing st h with
  | nil =>
    intro sid
    simpa [turnsFor] using hst sid
  | cons op rest ih =>
    intro sid
    cases op with
    | get s =>
      have := ih st h hst sid
      simpa [turnsFor, sessStep] using this
    | add s r c =>
      have hst' : ∀ sid2, sessStep st (.add s r c) sid2 =
          lastN 50 ((fun id => if id = s then h id ++ [⟨r, c⟩] else h id) sid2) := by
        intro sid2
        by_cases heq : sid2 = s
        · subst heq
          simp only [sessStep, addToStore, getSession, if_pos rfl]
          rw [hst sid2]
          exact addToSession_lastN (h sid2) r c
        · simp [sessStep, addToStore, heq, hst sid2]
      have := ih _ _ hst' sid
      by_cases heq : sid = s
      · subst heq
        simpa [turnsFor, List.filterMap_cons] using this
      · have hne : ¬s = sid := fun hh => heq hh.symm
        simpa [turnsFor, List.filterMap_cons, heq, hne] using this

/-- C3 (Session trimming invariant): after any sequence of `getSession` /
`addToSession` calls starting from the empty store, every session's
transcript is exactly the most recent 50 of the turns appended to it, in
their original relative order, and in particular never exceeds 50 turns. -/
theorem session_trimming_invariant (ops : List SessOp) (sid : String) :
    runSessOps ops sid = lastN 50 (turnsFor sid ops) ∧
      (runSessOps ops sid).length ≤ 50 := by
  have h := runSessOps_from ops emptyStore (fun _ => []) (fun _ => rfl) sid
  simp only [List.nil_append] at h
  refine ⟨h, ?_⟩
  rw [show runSessOps ops = ops.foldl sessStep emptyStore from rfl, h]
  exact length_lastN 50 _

/-- C4 (Turn atomicity on failure): when the runner throws after the user
message was appended — however many items were already streamed — the catch
block reports the error and the post-loop persistence step never runs, so
the store holds exactly the user turn and no assistant turn, and the stream
ends with the single `error` event. -/
theorem turn_atomicity_on_failure (store : Store) (sessionId userMessage : String)
    (items : List RunnerItem) (errMsg : String) :
    (streamCounselorResponse store sessionId userMessage ⟨items, some errMsg⟩).store
        = addToStore store sessionId .user userMessage ∧
      (streamCounselorResponse store sessionId userMessage ⟨items, some errMsg⟩).events
        = itemEvents items ++ [.errorEv errMsg] :=
  ⟨rfl, rfl⟩

/-- The events forwarded during the runner loop are never terminal ones. -/
theorem itemEvents_not_terminal (items : List RunnerItem) :
    ∀ e ∈ itemEvents items, isTerminal e = false := by
  intro e he
  simp only [itemEvents, List.mem_filterMap] at he
  obtain ⟨it, _, hit⟩ := he
  cases it with
  | textDelta t => cases hit; rfl
  | cardsCall ev => cases hit; rfl
  | meditationCall ev => cases hit; rfl
  | otherEvent => cases hit

/-- C5 (Terminal-event exclusivity): every per-turn stream is a sequence of
non-terminal events followed by exactly one terminal event (`done` or
`error`), after which nothing more is emitted. -/
theorem terminal_event_exclusivity (store : Store) (sessionId userMessage : String)
    (script : RunnerScript) :
    ∃ pre last, (streamCounselorResponse store sessionId userMessage script).events
        = pre ++ [last] ∧ isTerminal last = true ∧
      ∀ e ∈ pre, isTerminal e = false := by
  obtain ⟨items, failure⟩ := script
  cases failure with
  | none =>
    exact ⟨itemEvents items, .done, rfl, rfl, itemEvents_not_terminal items⟩
  | some msg =>
    exact ⟨itemEvents items, .errorEv msg, rfl, rfl, itemEvents_not_terminal items⟩

/-- C6 (Assistant-turn recording): on a turn that completes without a fatal
error, if the concatenation of the streamed text deltas is non-empty after
trimming, exactly one assistant turn carrying that concatenation is appended
after the user turn; if it trims to empty, no assistant turn is appended. -/
theorem assistant_turn_recording (store : Store) (sessionId userMessage : String)
    (items : List RunnerItem) :
    (strTrim (concatDeltas items) ≠ "" →
      (streamCounselorResponse store sessionId userMessage ⟨items, none⟩).store sessionId
        = addToSession
            (addToSession (getSession store sessionId) .user userMessage)
            .assistant (concatDeltas items)) ∧
    (strTrim (concatDeltas items) = "" →
      (streamCounselorResponse store sessionId userMessage ⟨items, none⟩).store sessionId
        = addToSession (getSession store sessionId) .user userMessage) := by
  constructor <;> intro h <;>
    simp [streamCounselorResponse, h, addToStore, getSession]

/-- Witness for C6: a turn streaming `Hello`, a cards event, then ` world`
records one assistant turn `Hello world` after the user turn. -/
theorem assistant_turn_recording_witness :
    strTrim (concatDeltas
        [.textDelta "Hello", .cardsCall ⟨"pick one", []⟩, .textDelta " world"]) ≠ "" ∧
      (streamCounselorResponse emptyStore "session-1" "hi"
          ⟨[.textDelta "Hello", .cardsCall ⟨"pick one", []⟩, .textDelta " world"],
            none⟩).store "session-1"
        = addToSession (addToSession (getSession emptyStore "session-1") .user "hi")
            .assistant (concatDeltas
              [.textDelta "Hello", .cardsCall ⟨"pick one", []⟩, .textDelta " world"]) :=
  ⟨by decide,
   (assistant_turn_recording emptyStore "session-1" "hi"
     [.textDelta "Hello", .cardsCall ⟨"pick one", []⟩, .textDelta " world"]).1
     (by decide)⟩

/-- C7 (Insert bounds): on an existing file, `insert(path, n, text)` succeeds
exactly when `0 ≤ n ≤ L` (`L` = the file's line count, `n = 0` meaning
before the first line), splicing the new line in at position `n`; otherwise
the store is unchanged and the soft error states the valid range `[0, L]`. -/
theorem insert_bounds (root : List (List Char)) (fs : FS) (p text : String)
    (n : Int) (full : List Char) (content : String)
    (hres : resolveSafePath root p = .ok full)
    (hfile : lookupFile fs (ofChars full) = some content) :
    (isSuccess (runMemOp root fs (.insert p n text)) = true ↔
      0 ≤ n ∧ n ≤ ((FileSystemMemoryHandlers.contentLines content).length : Int)) ∧
    (¬(0 ≤ n ∧ n ≤ ((FileSystemMemoryHandlers.contentLines content).length : Int)) →
      (runMemOp root fs (.insert p n text)).1 = fs ∧
      (runMemOp root fs (.insert p n text)).2 = .ok (.softError
        ("錯誤：insert_line " ++ toString n ++ " 超出範圍 [0, "
          ++ toString (FileSystemMemoryHandlers.contentLines content).length ++ "]"))) ∧
    ((0 ≤ n ∧ n ≤ ((FileSystemMemoryHandlers.contentLines content).length : Int)) →
      (runMemOp root fs (.insert p n text)).1 = writeFile fs (ofChars full)
        (ofChars (List.intercalate ['\n']
          (((FileSystemMemoryHandlers.contentLines content).take n.toNat
              ++ [text]
              ++ (FileSystemMemoryHandlers.contentLines content).drop n.toNat).map
            String.data)))) := by
  simp only [runMemOp, FileSystemMemoryHandlers.insert, hres, hfile]
  by_cases hcond : n < 0 ∨ n > ((FileSystemMemoryHandlers.contentLines content).length : Int)
  · refine ⟨?_, ?_, ?_⟩
    · simp only [if_pos hcond, isSuccess]
      constructor
      · intro h; cases h
      · intro h; omega
    · intro _
      simp [if_pos hcond]
    · intro h; omega
  · refine ⟨?_, ?_, ?_⟩
    · simp only [if_neg hcond, isSuccess]
      constructor
      · intro _; omega
      · intro _; trivial
    · intro h; omega
    · intro _
      simp [if_neg hcond]

/-- Witness for C7: inserting at line 1 of the one-line sample file falls in
the valid range and succeeds. -/
theorem insert_bounds_witness :
    isSuccess (runMemOp sampleRoot sampleFS (.insert "/memories/f.txt" 1 "zz")) = true ↔
      0 ≤ (1 : Int) ∧ (1 : Int) ≤
        ((FileSystemMemoryHandlers.contentLines "aaa").length : Int) :=
  (insert_bounds sampleRoot sampleFS "/memories/f.txt" "zz" 1
    "/srv/memories/f.txt".data "aaa" (by decide) (by decide)).1

/-- The `split`-based count only goes negative in the degenerate case where
both the content and the search string are empty (where it is `-1`). -/
theorem jsSplitCount_neg_iff (c o : List Char) :
    jsSplitCount c o < 0 ↔ (o = [] ∧ c = []) := by
  unfold jsSplitCount
  by_cases ho : o = []
  · subst ho
    cases c with
    | nil => simp
    | cons x xs =>
      simp only [if_pos rfl, List.length_cons]
      constructor
      · intro h
        exfalso
        have : (0 : Int) ≤ (xs.length : Int) := Int.natCast_nonneg _
        omega
      · rintro ⟨-, h⟩
        cases h
  · simp only [if_neg ho]
    constructor
    · intro h
      exfalso
      have : (0 : Int) ≤ (countOcc o c : Int) := Int.natCast_nonneg _
      omega
    · rintro ⟨h, -⟩
      exact absurd h ho

/-- A string is empty exactly when its character list is. -/
theorem string_eq_empty_iff (s : String) : s = "" ↔ s.data = [] := by
  constructor
  · intro h; subst h; rfl
  · intro h
    cases s with
    | mk data => cases h; rfl

/-- The three-way branch taken by `str_replace` succeeds exactly when the
`split` count is 1, or degenerately `-1` (both strings empty). -/
theorem str_replace_branch_iff (c o : List Char) :
    (¬jsSplitCount c o = 0 ∧ ¬jsSplitCount c o > 1) ↔
      (jsSplitCount c o = 1 ∨ (o = [] ∧ c = [])) := by
  have hneg := jsSplitCount_neg_iff c o
  constructor
  · rintro ⟨h0, h1⟩
    by_cases hone : jsSplitCount c o = 1
    · exact Or.inl hone
    · exact Or.inr (hneg.mp (by omega))
  · rintro (h | h)
    · constructor <;> omega
    · have := hneg.mpr h
      constructor <;> omega

/-- C2 as amended: on an existing file, `str_replace` succeeds exactly when
the source's `split`-based count of non-overlapping occurrences of `old` is
1 (or, degenerately, when both `old` and the content are empty, where the
count underflows to `-1`); on success the single leftmost occurrence is
replaced and persisted, and otherwise the store is unchanged and a soft
error is returned. -/
theorem str_replace_split_count (root : List (List Char)) (fs : FS)
    (p old new : String) (full : List Char) (content : String)
    (hres : resolveSafePath root p = .ok full)
    (hfile : lookupFile fs (ofChars full) = some content) :
    (isSuccess (runMemOp root fs (.str_replace p old new)) = true ↔
      (jsSplitCount content.data old.data = 1 ∨ (old = "" ∧ content = ""))) ∧
    ((jsSplitCount content.data old.data = 1 ∨ (old = "" ∧ content = "")) →
      (runMemOp root fs (.str_replace p old new)).1
        = writeFile fs (ofChars full)
            (ofChars (replaceFirst old.data new.data content.data))) ∧
    (¬(jsSplitCount content.data old.data = 1 ∨ (old = "" ∧ content = "")) →
      (runMemOp root fs (.str_replace p old new)).1 = fs ∧
      ∃ msg, (runMemOp root fs (.str_replace p old new)).2 = .ok (.softError msg)) := by
  simp only [runMemOp, FileSystemMemoryHandlers.str_replace, hres, hfile]
  have hiff : (old = "" ∧ content = "") ↔ (old.data = [] ∧ content.data = []) := by
    rw [string_eq_empty_iff, string_eq_empty_iff]
  have hbr := str_replace_branch_iff content.data old.data
  by_cases h0 : jsSplitCount content.data old.data = 0
  · have hnot : ¬(jsSplitCount content.data old.data = 1 ∨ (old = "" ∧ content = "")) := by
      rintro (h | h)
      · omega
      · exact (hbr.mpr (Or.inr (hiff.mp h))).1 h0
    refine ⟨?_, ?_, ?_⟩
    · simp only [if_pos h0, isSuccess]
      constructor
      · intro h; cases h
      · intro h; exact absurd h hnot
    · intro h; exact absurd h hnot
    · intro _
      simp [if_pos h0]
  · by_cases h1 : jsSplitCount content.data old.data > 1
    · have hnot : ¬(jsSplitCount content.data old.data = 1 ∨ (old = "" ∧ content = "")) := by
        rintro (h | h)
        · omega
        · exact (hbr.mpr (Or.inr (hiff.mp h))).2 h1
      refine ⟨?_, ?_, ?_⟩
      · simp only [if_neg h0, if_pos h1, isSuccess]
        constructor
        · intro h; cases h
        · intro h; exact absurd h hnot
      · intro h; exact absurd h hnot
      · intro _
        simp [if_neg h0, if_pos h1]
    · have hyes : jsSplitCount content.data old.data = 1 ∨ (old = "" ∧ content = "") := by
        rw [hiff]
        exact hbr.mp ⟨h0, h1⟩
      refine ⟨?_, ?_, ?_⟩
      · simp only [if_neg h0, if_neg h1, isSuccess]
        constructor
        · intro _; exact hyes
        · intro _; trivial
      · intro _
        simp [if_neg h0, if_neg h1]
      · intro h; exact absurd hyes h

/-- Witness for the amended C2: replacing `aa` in the sample file `aaa`
succeeds because the `split`-based count is 1. -/
theorem str_replace_split_count_witness :
    isSuccess (runMemOp sampleRoot sampleFS
        (.str_replace "/memories/f.txt" "aa" "X")) = true ↔
      (jsSplitCount "aaa".data "aa".data = 1 ∨ ("aa" = "" ∧ "aaa" = "")) :=
  (str_replace_split_count sampleRoot sampleFS "/memories/f.txt" "aa" "X"
    "/srv/memories/f.txt".data "aaa" (by decide) (by decide)).1

/-- Counterexample to C2 as stated: `aa` occurs twice in `aaa` (the
occurrences overlap), yet `str_replace` succeeds — the `split`-based count
only sees one non-overlapping occurrence — and rewrites the file to `Xa`
instead of leaving it unchanged with a soft error. -/
theorem str_replace_overlap_cex :
    substrOccurrences "aa".data "aaa".data = 2 ∧
      isSuccess (runMemOp sampleRoot sampleFS
        (.str_replace "/memories/f.txt" "aa" "X")) = true ∧
      (runMemOp sampleRoot sampleFS (.str_replace "/memories/f.txt" "aa" "X")).1
        = [("/srv/memories/f.txt", "Xa")] :=
  ⟨by decide, by decide, by decide⟩

/-- C8 evaluated at the failing input: deleting a path at which nothing
exists reports success (`已刪除 …`) rather than the intended soft not-found
error, because `fs.rm` is invoked with `force: true`, which suppresses the
missing-path exception and makes the catch branch unreachable. -/
theorem delete_missing_path_reports_success :
    lookupFile ([] : FS) "/srv/memories/nonexistent.txt" = none ∧
      existsAt ([] : FS) "/srv/memories/nonexistent.txt" = false ∧
      runMemOp sampleRoot [] (.delete "/memories/nonexistent.txt")
        = ([], .ok (.success "已刪除 /memories/nonexistent.txt")) :=
  ⟨by decide, by decide, by decide⟩

/-- C9 (Submit-turn validation): whenever `sessionId` or `message` is
missing, not a string, or empty, `/api/chat` answers with a synchronous 400
response: the store is untouched, no stream is opened and the (external)
runner is never consulted. -/
theorem submit_turn_validation (store : Store) (body : ChatBody)
    (script : RunnerScript)
    (hbad : badField body.sessionId = true ∨ badField body.message = true) :
    ∃ err, chatHandler store body script = (store, .badRequest err) := by
  obtain ⟨sidv, msgv⟩ := body
  cases sidv with
  | none => exact ⟨"sessionId 為必填欄位", rfl⟩
  | some v =>
    cases v with
    | str s =>
      by_cases hs : s = ""
      · subst hs
        exact ⟨"sessionId 為必填欄位", by simp [chatHandler]⟩
      · have hmsg : badField msgv = true := by
          rcases hbad with h | h
          · simp [badField, hs] at h
          · exact h
        cases msgv with
        | none => exact ⟨"message 為必填欄位", by simp [chatHandler, hs]⟩
        | some w =>
          cases w with
          | str m =>
            have hm : m = "" := by simpa [badField] using hmsg
            subst hm
            exact ⟨"message 為必填欄位", by simp [chatHandler, hs]⟩
          | num k => exact ⟨"message 為必填欄位", by simp [chatHandler, hs]⟩
          | boolean b => exact ⟨"message 為必填欄位", by simp [chatHandler, hs]⟩
          | null => exact ⟨"message 為必填欄位", by simp [chatHandler, hs]⟩
    | num k => exact ⟨"sessionId 為必填欄位", rfl⟩
    | boolean b => exact ⟨"sessionId 為必填欄位", rfl⟩
    | null => exact ⟨"sessionId 為必填欄位", rfl⟩

/-- Witness for C9: an empty `sessionId` is rejected with a 400 and no
stream. -/
theorem submit_turn_validation_witness :
    badField (some (.str "")) = true ∧
      ∃ err, chatHandler emptyStore ⟨some (.str ""), some (.str "hello")⟩
          ⟨[], none⟩ = (emptyStore, .badRequest err) :=
  ⟨by decide,
   submit_turn_validation emptyStore ⟨some (.str ""), some (.str "hello")⟩
     ⟨[], none⟩ (Or.inl (by decide))⟩

/-- Counterexample to C10 as stated: `/memories../secret` begins with
`/memories` and its next character (`.`) is not a path separator, yet
`resolveSafePath` does not accept it — treating `../secret` as the relative
path canonicalizes outside the storage root, so it throws `PathEscape`. -/
theorem memories_prefix_edge_cex :
    startsWithMemories "/memories../secret" = true ∧
      ("/memories../secret".data.drop 9).head? = some '.' ∧
      (('.' = '/') ∨ ('.' = '\\')) = False ∧
      resolveSafePath sampleRoot "/memories../secret" = .error .pathEscape :=
  ⟨by decide, by decide, by decide, by decide⟩

/-- C10 as amended: a path that begins with the characters `/memories` —
whether or not the next character is a separator — is never rejected by the
prefix check (`PathRejected`); the text after `/memories` is treated as the
relative path, so `/memoriesX/file.txt` resolves to `X/file.txt` inside the
storage root, while such a path can still throw `PathEscape` when that
relative part canonicalizes outside the root. -/
theorem memories_prefix_edge_amended :
    (∀ (root : List (List Char)) (p : String), startsWithMemories p = true →
        resolveSafePath root p ≠ .error .pathRejected) ∧
      resolveSafePath sampleRoot "/memoriesX/file.txt"
        = .ok "/srv/memories/X/file.txt".data := by
  constructor
  · intro root p h
    unfold resolveSafePath
    rw [h]
    simp only [Bool.true_eq_false, if_false]
    by_cases hin : insideRoot root p
    · simp [hin]
    · simp [hin]
  · decide

/-- Witness for the amended C10: the edge path `/memoriesX/file.txt` starts
with `/memories` and is therefore not `PathRejected`. -/
theorem memories_prefix_edge_amended_witness :
    startsWithMemories "/memoriesX/file.txt" = true ∧
      resolveSafePath sampleRoot "/memoriesX/file.txt" ≠ .error .pathRejected :=
  ⟨by decide,
   memories_prefix_edge_amended.1 sampleRoot "/memoriesX/file.txt" (by decide)⟩
